import Mathlib

set_option linter.unusedVariables false

/-!
Shallow embedding of the `sfvm` EVM bytecode interpreter
(go/interpreter/sfvm) and verification of its specification.

Bytes and opcodes are `Nat` values below 256; 64-bit bitmap words and
256-bit stack words are `Nat` (no arithmetic overflows the 64-bit range
in the modelled operations, see the comments at each definition); the
signed 64-bit gas counters and the 32-bit program counter are `Int`.
-/

namespace Sfvm

/-! ### Jump-destination analysis (analysis.go) -/

/-- The `jumpDestMap` structure of analysis.go: a packed bit array
(`bitmap`, a slice of uint64 words) plus the length of the analysed
code. Every bitmap word is an or-combination of masks `2 ^ (i % 64)`,
hence stays below `2 ^ 64`; the `Nat` model therefore agrees with the
Go uint64 arithmetic exactly. -/
structure JumpDestMap where
  bitmap : List Nat
  codeSize : Nat
deriving DecidableEq, Repr

/-- Function `newJumpDestMap` of analysis.go: allocates `size/64 + 1` zeroed
bitmap words. -/
def newJumpDestMap (size : Nat) : JumpDestMap :=
  { bitmap := List.replicate (size / 64 + 1) 0, codeSize := size }

/-- Function `idxToAnalysisIdxAndMask` of analysis.go: word index and bit mask
for a code offset. `1 << (idx % 64)` never overflows uint64. -/
def idxToAnalysisIdxAndMask (idx : Nat) : Nat × Nat :=
  (idx / 64, 2 ^ (idx % 64))

/-- Function `markJumpDest` of analysis.go: sets bit `idx` unless the index is
at or beyond the code size. -/
def markJumpDest (a : JumpDestMap) (idx : Nat) : JumpDestMap :=
  if a.codeSize ≤ idx then a
  else
    let p := idxToAnalysisIdxAndMask idx
    { a with bitmap := a.bitmap.set p.1 ((a.bitmap.getD p.1 0) ||| p.2) }

/-- Function `isJumpDest` of analysis.go: bit test guarded by the code size.
(The Go receiver-nil case returns false and is not reachable in the
modelled flows.) -/
def isJumpDest (a : JumpDestMap) (idx : Nat) : Bool :=
  if a.codeSize ≤ idx then false
  else
    let p := idxToAnalysisIdxAndMask idx
    (a.bitmap.getD p.1 0) &&& p.2 != 0

/-- The JUMPDEST opcode byte 0x5b. -/
def JUMPDEST : Nat := 0x5b

/-- The PUSH1 opcode byte 0x60. -/
def PUSH1 : Nat := 0x60

/-- The PUSH32 opcode byte 0x7f. -/
def PUSH32 : Nat := 0x7f

/-- The scan loop of `jumpDestAnalysisInternal` (analysis.go): starting
at `idx`, each `PUSHn` byte advances by `n + 1` (the Go body adds
`dataSize` and the for-loop adds one more), each `JUMPDEST` byte marks
its offset and advances by one, anything else advances by one. -/
def jumpDestAnalysisLoop (code : List Nat) (idx : Nat) (a : JumpDestMap) :
    JumpDestMap :=
  if h : idx < code.length then
    let op := code.getD idx 0
    if PUSH1 ≤ op ∧ op ≤ PUSH32 then
      jumpDestAnalysisLoop code (idx + (op - PUSH1 + 1) + 1) a
    else if op = JUMPDEST then
      jumpDestAnalysisLoop code (idx + 1) (markJumpDest a idx)
    else
      jumpDestAnalysisLoop code (idx + 1) a
  else a
termination_by code.length - idx
decreasing_by all_goals omega

/-- Function `jumpDestAnalysisInternal` of analysis.go. -/
def jumpDestAnalysisInternal (code : List Nat) : JumpDestMap :=
  jumpDestAnalysisLoop code 0 (newJumpDestMap code.length)

/-- Specification-side view: the offsets that the left-to-right scan
skips as immediate data of some `PUSHn` instruction, collected from
scan position `idx` on. An offset is a valid jump destination exactly
when it holds byte 0x5b and is not in this list. -/
def pushDataPositions (code : List Nat) (idx : Nat) : List Nat :=
  if h : idx < code.length then
    let op := code.getD idx 0
    if PUSH1 ≤ op ∧ op ≤ PUSH32 then
      List.range' (idx + 1) (op - PUSH1 + 1) ++
        pushDataPositions code (idx + (op - PUSH1 + 1) + 1)
    else
      pushDataPositions code (idx + 1)
  else []
termination_by code.length - idx
decreasing_by all_goals omega

/-- Specification-side view: the offsets the scan marks as jump
destinations, collected from scan position `idx` on. -/
def jumpDestsFrom (code : List Nat) (idx : Nat) : List Nat :=
  if h : idx < code.length then
    let op := code.getD idx 0
    if PUSH1 ≤ op ∧ op ≤ PUSH32 then
      jumpDestsFrom code (idx + (op - PUSH1 + 1) + 1)
    else if op = JUMPDEST then
      idx :: jumpDestsFrom code (idx + 1)
    else
      jumpDestsFrom code (idx + 1)
  else []
termination_by code.length - idx
decreasing_by all_goals omega

/-! ### Analysis cache (analysis.go and its golang-lru dependency) -/

/-- Modelled from the spec: the bounded LRU cache of the golang-lru
dependency (not part of the sources; §3.1 and §4.1 of the
specification): an ordered mapping from code hash to bitmap id, most
recently used entry first, evicted beyond `capacity`. Bitmaps are
referenced by allocation ids into an explicit heap so that reference
equality of returned objects is expressible. Hashes are `Nat`. -/
structure LruCache where
  capacity : Nat
  entries : List (Nat × Nat)
deriving DecidableEq, Repr

/-- Modelled from the spec: `Get` on the LRU cache; a hit refreshes
the recency of the entry. -/
def lruGet (c : LruCache) (k : Nat) : Option Nat × LruCache :=
  match c.entries.find? (fun e => e.1 == k) with
  | some e =>
      (some e.2,
        { c with entries := (k, e.2) :: c.entries.filter (fun e2 => e2.1 != k) })
  | none => (none, c)

/-- Modelled from the spec: `Add` on the LRU cache; inserts the entry
as most recent and evicts the least recently used beyond capacity. -/
def lruAdd (c : LruCache) (k v : Nat) : LruCache :=
  { c with
    entries := ((k, v) :: c.entries.filter (fun e => e.1 != k)).take c.capacity }

/-- Result of `analyzeJumpDest`: the bitmap value, its object identity
(an allocation id into `heap`), the heap of all allocated bitmaps, and
the updated cache. -/
structure AnalyzeResult where
  value : JumpDestMap
  id : Nat
  heap : List JumpDestMap
  cache : Option LruCache
deriving Repr

/-- Function `analyzeJumpDest` of analysis.go. `a = none` models a nil analysis
struct or a nil cache; in that case, and when no code hash is given, a
fresh bitmap is allocated at the next heap id without touching the
cache. Otherwise the cache is consulted; a hit returns the stored id
(the very same object), a miss computes, allocates and inserts. -/
def analyzeJumpDest (a : Option LruCache) (heap : List JumpDestMap)
    (code : List Nat) (codehash : Option Nat) : AnalyzeResult :=
  match a, codehash with
  | some cache, some hsh =>
      match lruGet cache hsh with
      | (some idv, cache2) =>
          { value := heap.getD idv (newJumpDestMap 0), id := idv, heap := heap,
            cache := some cache2 }
      | (none, cache2) =>
          let m := jumpDestAnalysisInternal code
          { value := m, id := heap.length, heap := heap ++ [m],
            cache := some (lruAdd cache2 hsh heap.length) }
  | _, _ =>
      let m := jumpDestAnalysisInternal code
      { value := m, id := heap.length, heap := heap ++ [m], cache := a }

/-! ### Execution state and dispatch (interpreter.go) -/

/-- The `status` enumeration of interpreter.go. -/
inductive Status where
  | running | stopped | reverted | returned | selfDestructed | failed
deriving DecidableEq, Repr

/-- The interpreter-internal error values (errors.go is not part of
the sources; the values are pinned by their use in interpreter.go).
`generic` stands for any further handler error. -/
inductive VmError where
  | outOfGas
  | stackUnderflow
  | stackOverflow
  | invalidOpcode
  | generic (n : Nat)
deriving DecidableEq, Repr

/-- Errors surfaced by `Run` and `StepN`: `tosca.ErrUnsupportedRevision`
and the unknown-status error of the `generateResult` default branch. -/
inductive RunError where
  | unsupportedRevision (rev : Nat)
  | internalError
deriving DecidableEq, Repr

/-- The slice of `tosca.Parameters` read by the modelled flows:
protocol revision (by ordinal), code, optional code hash, gas budget,
call input. -/
structure Parameters where
  revision : Nat
  code : List Nat
  codeHash : Option Nat
  gas : Int
  input : List Nat
deriving DecidableEq, Repr

/-- The sfvm `Memory` object as used by ct.go: the byte store and the
memoized memory-expansion cost (memory.go is not part of the sources;
the two fields are pinned by their use in ct.go). -/
structure Memory where
  store : List Nat
  currentMemoryCost : Int
deriving DecidableEq, Repr

/-- Modelled from the spec: `NewMemory` yields an empty memory. -/
def NewMemory : Memory := { store := [], currentMemoryCost := 0 }

/-- Modelled from the spec: a fresh sfvm operand stack is empty
(stack.go is not part of the sources; stack pooling is a reuse
optimisation with no functional content). The stack is a bottom-first
list. -/
def NewStack : List Nat := []

/-- Modelled from the spec: `push` on the sfvm stack appends at the
top end of the bottom-first list. -/
def stackPush (s : List Nat) (v : Nat) : List Nat := s ++ [v]

/-- The per-call execution context of interpreter.go. The host
`RunContext` is omitted: the opcode handlers, the only readers, are
abstracted below. The program counter is the Go int32, gas counters
are the Go int64. -/
structure Context where
  params : Parameters
  code : List Nat
  analysis : JumpDestMap
  pc : Int
  gas : Int
  refund : Int
  stack : List Nat
  memory : Memory
  returnData : List Nat
  withShaCache : Bool
deriving Repr

/-- Function `useGas` of interpreter.go as a function of the gas counter; the
Go method returns before mutating the counter on failure. -/
def useGas (gas amount : Int) : Option Int :=
  if gas < 0 ∨ amount < 0 ∨ gas < amount then none
  else some (gas - amount)

/-- Structure `stackLimits` of interpreter.go. -/
structure StackLimits where
  min : Int
  max : Int
deriving DecidableEq, Repr

/-- The revision-indexed static gas table (`getStaticGasPrices`) lives
outside the provided sources; the dispatch loop is verified over an
arbitrary table. -/
abbrev GasTable := Nat → Int

/-- The precomputed per-opcode stack-limit table
(`_precomputedStackLimits`, built from `computeStackUsage` outside the
provided sources); the dispatch loop is verified over an arbitrary
table. -/
abbrev LimitsTable := Nat → StackLimits

/-- The opcode handlers (the switch arms of `steps`) live outside the
provided sources; a handler family maps the fetched opcode and the
context to the updated context, the status set by the switch arm, and
an optional error. -/
abbrev Handler := Nat → Context → Context × Status × Option VmError

/-- Function `checkStackLimits` of interpreter.go over an arbitrary limits
table: underflow strictly below `min`, overflow strictly above
`max`. -/
def checkStackLimits (sl : LimitsTable) (stackLen : Int) (op : Nat) :
    Option VmError :=
  let limits := sl op
  if stackLen < limits.min then some VmError.stackUnderflow
  else if limits.max < stackLen then some VmError.stackOverflow
  else none

/-- The dispatch loop of `steps` (interpreter.go), one fuel unit per
iteration; `none` means the fuel bound was reached (the Go loop is
unbounded; the verified claims are fuel-independent). Iteration order
mirrors the source: loop condition on the status, code-end check,
fetch, stack-limit check, static gas charge, handler dispatch, error
check, `pc` increment, single-step exit. A negative `pc` would panic
in Go at the fetch; the model reads byte 0 there, and the claims only
concern non-negative `pc`. -/
def stepsLoop (gp : GasTable) (sl : LimitsTable) (hd : Handler)
    (oneStepOnly : Bool) :
    Nat → Context → Status → Option (Context × Status × Option VmError)
  | 0, _, _ => none
  | fuel + 1, c, st =>
    if st ≠ Status.running then some (c, st, none)
    else if (c.code.length : Int) ≤ c.pc then some (c, Status.stopped, none)
    else
      match checkStackLimits sl (c.stack.length : Int)
          (c.code.getD c.pc.toNat 0) with
      | some e => some (c, st, some e)
      | none =>
        match useGas c.gas (gp (c.code.getD c.pc.toNat 0)) with
        | none => some (c, st, some VmError.outOfGas)
        | some g =>
          match hd (c.code.getD c.pc.toNat 0) { c with gas := g } with
          | (c2, st2, some e) => some (c2, st2, some e)
          | (c2, st2, none) =>
            if oneStepOnly then some ({ c2 with pc := c2.pc + 1 }, st2, none)
            else stepsLoop gp sl hd oneStepOnly fuel
              { c2 with pc := c2.pc + 1 } st2

/-- Function `steps` of interpreter.go: the dispatch loop entered with status
running. -/
def steps (gp : GasTable) (sl : LimitsTable) (hd : Handler) (fuel : Nat)
    (c : Context) (oneStepOnly : Bool) :
    Option (Context × Status × Option VmError) :=
  stepsLoop gp sl hd oneStepOnly fuel c Status.running

/-- Function `execute` of interpreter.go: any error from `steps` becomes
`Status.failed`. -/
def execute (gp : GasTable) (sl : LimitsTable) (hd : Handler) (fuel : Nat)
    (c : Context) (oneStepOnly : Bool) : Option (Context × Status) :=
  match steps gp sl hd fuel c oneStepOnly with
  | none => none
  | some (c2, _, some _) => some (c2, Status.failed)
  | some (c2, st, none) => some (c2, st)

/-- One iteration of the dispatch loop written out without the loop:
one code-end check, one stack-limit check, one static gas charge, one
handler dispatch, one `pc` increment. -/
def singleIteration (gp : GasTable) (sl : LimitsTable) (hd : Handler)
    (c : Context) : Context × Status × Option VmError :=
  if (c.code.length : Int) ≤ c.pc then (c, Status.stopped, none)
  else
    match checkStackLimits sl (c.stack.length : Int)
        (c.code.getD c.pc.toNat 0) with
    | some e => (c, Status.running, some e)
    | none =>
      match useGas c.gas (gp (c.code.getD c.pc.toNat 0)) with
      | none => (c, Status.running, some VmError.outOfGas)
      | some g =>
        match hd (c.code.getD c.pc.toNat 0) { c with gas := g } with
        | (c2, st2, some e) => (c2, st2, some e)
        | (c2, st2, none) => ({ c2 with pc := c2.pc + 1 }, st2, none)

/-- A handler family that never increases the gas counter (true of
every opcode implementation; the handlers live outside the provided
sources). -/
def HandlerGasMonotone (hd : Handler) : Prop :=
  ∀ op c, ((hd op c).1).gas ≤ c.gas

/-- The slice of `tosca.Result` produced by the interpreter; the Go
zero value has `Success = false`, nil output and zero gas fields. -/
structure Result where
  success : Bool
  output : List Nat
  gasLeft : Int
  gasRefund : Int
deriving DecidableEq, Repr

/-- Function `generateResult` of interpreter.go; the default branch (a status
that is still running or unknown) yields the zero result and an
internal error. -/
def generateResult (st : Status) (c : Context) : Result × Option RunError :=
  match st with
  | Status.stopped =>
      ({ success := true, output := [], gasLeft := c.gas,
         gasRefund := c.refund }, none)
  | Status.selfDestructed =>
      ({ success := true, output := [], gasLeft := c.gas,
         gasRefund := c.refund }, none)
  | Status.returned =>
      ({ success := true, output := c.returnData, gasLeft := c.gas,
         gasRefund := c.refund }, none)
  | Status.reverted =>
      ({ success := false, output := c.returnData, gasLeft := c.gas,
         gasRefund := 0 }, none)
  | Status.failed =>
      ({ success := false, output := [], gasLeft := 0, gasRefund := 0 }, none)
  | Status.running =>
      ({ success := false, output := [], gasLeft := 0, gasRefund := 0 },
        some RunError.internalError)

/-- The internal `config` of part_001. -/
structure VmConfig where
  withShaCache : Bool
  withAnalysisCache : Bool
deriving DecidableEq, Repr

/-- Function `run` of interpreter.go: the empty-code fast path returns before
any context is constructed; otherwise the context is set up as in the
source (fresh stack and memory, `pc` 0, gas from the parameters,
bitmap from the analysis) and the terminal status is marshalled. -/
def run (gp : GasTable) (sl : LimitsTable) (hd : Handler) (fuel : Nat)
    (a : Option LruCache) (heap : List JumpDestMap) (cfg : VmConfig)
    (params : Parameters) : Option (Result × Option RunError) :=
  if params.code.length = 0 then
    some ({ success := true, output := [], gasLeft := params.gas,
            gasRefund := 0 }, none)
  else
    let ctxt : Context :=
      { params := params, code := params.code,
        analysis := (analyzeJumpDest a heap params.code params.codeHash).value,
        pc := 0, gas := params.gas, refund := 0,
        stack := NewStack, memory := NewMemory, returnData := [],
        withShaCache := cfg.withShaCache }
    match execute gp sl hd fuel ctxt false with
    | none => none
    | some (c2, st) => some (generateResult st c2)

/-- Constant `newestSupportedRevision` of part_001: `tosca.R15_Osaka`; protocol
revisions are modelled by their ordinal, Osaka = 15. -/
def newestSupportedRevision : Nat := 15

/-- Method `Run` of part_001 (`func (s *sfvm) Run`): the revision gate in
front of `run`; the Go error path returns the zero `tosca.Result`
together with the unsupported-revision error. -/
def Run (gp : GasTable) (sl : LimitsTable) (hd : Handler) (fuel : Nat)
    (a : Option LruCache) (heap : List JumpDestMap) (cfg : VmConfig)
    (params : Parameters) : Option (Result × Option RunError) :=
  if newestSupportedRevision < params.revision then
    some ({ success := false, output := [], gasLeft := 0, gasRefund := 0 },
      some (RunError.unsupportedRevision params.revision))
  else run gp sl hd fuel a heap cfg params

/-! ### Conformance-testing adapter (ct.go) -/

/-- Modelled from the spec: the `st.StatusCode` values of the ct
package used by ct.go. -/
inductive CtStatus where
  | running | stopped | reverted | failed
deriving DecidableEq, Repr

/-- Modelled from the spec: the slice of the ct `st.State` read and
written by ct.go. The ct stack lists the top element first (`Get 0` is
the top); the ct memory is the raw byte contents. -/
structure CtState where
  status : CtStatus
  revision : Nat
  pc : Nat
  gas : Int
  gasRefund : Int
  stack : List Nat
  memory : List Nat
  lastCallReturnData : List Nat
  returnData : List Nat
  code : List Nat
  codeHash : Option Nat
deriving DecidableEq, Repr

/-- Modelled from the spec: `utils.ToVmParameters` extracts the call
parameters from a ct state. -/
def toVmParameters (s : CtState) : Parameters :=
  { revision := s.revision, code := s.code, codeHash := s.codeHash,
    gas := s.gas, input := [] }

/-- Function `convertSfvmStatusToCtStatus` of ct.go. -/
def convertSfvmStatusToCtStatus : Status → CtStatus
  | Status.running => CtStatus.running
  | Status.returned => CtStatus.stopped
  | Status.stopped => CtStatus.stopped
  | Status.reverted => CtStatus.reverted
  | Status.selfDestructed => CtStatus.stopped
  | Status.failed => CtStatus.failed

/-- The descending loop of `convertCtStackToSfvmStack` (ct.go); the
counter `n` stands for the Go loop index `i + 1`, so the loop pushes
the ct elements from index `size − 1` down to index `0`. -/
def ctStackLoopPush (s : List Nat) : Nat → List Nat → List Nat
  | 0, res => res
  | n + 1, res => ctStackLoopPush s n (stackPush res (s.getD n 0))

/-- Function `convertCtStackToSfvmStack` of ct.go. -/
def convertCtStackToSfvmStack (s : List Nat) : List Nat :=
  ctStackLoopPush s s.length NewStack

/-- Modelled from the spec: `st.Stack.Resize`; every surviving entry
is overwritten by the subsequent `Set` loop, so the fill value is
immaterial. -/
def ctResize (s : List Nat) (n : Nat) : List Nat :=
  if n ≤ s.length then s.take n else s ++ List.replicate (n - s.length) 0

/-- The ascending loop of `convertSfvmStackToCtStack` (ct.go):
`result.Set (len − i − 1) (stack.get i)` for `i` from 0 to
`len − 1`, where `stack.get i` reads the i-th element from the bottom
of the sfvm stack. -/
def ctStackLoopSet (stack : List Nat) (len : Nat) (i : Nat)
    (res : List Nat) : List Nat :=
  if i < len then
    ctStackLoopSet stack len (i + 1) (res.set (len - i - 1) (stack.getD i 0))
  else res
termination_by len - i

/-- Function `convertSfvmStackToCtStack` of ct.go. -/
def convertSfvmStackToCtStack (stack : List Nat) (result : List Nat) :
    List Nat :=
  ctStackLoopSet stack stack.length 0 (ctResize result stack.length)

/-- Modelled from the spec: `tosca.SizeInWords` — the number of
32-byte words covering `n` bytes. -/
def SizeInWords (n : Nat) : Nat := (n + 31) / 32

/-- Function `convertCtMemoryToSfvmMemory` of ct.go: reads the full contents,
allocates a word-aligned store (zero padded by `make`), copies the
data in, and precomputes the current memory cost. -/
def convertCtMemoryToSfvmMemory (m : List Nat) : Memory :=
  let words := SizeInWords m.length
  { store := m ++ List.replicate (words * 32 - m.length) 0,
    currentMemoryCost := ((words * words) / 512 + 3 * words : Nat) }

/-- Function `convertSfvmMemoryToCtMemory` of ct.go: a fresh ct memory set to
the store's contents. -/
def convertSfvmMemoryToCtMemory (mem : Memory) : List Nat := mem.store

/-- The step loop of `ctAdapter.StepN` (ct.go): up to `numSteps`
single-step executions while the status remains running. -/
def stepNLoop (gp : GasTable) (sl : LimitsTable) (hd : Handler)
    (fuel : Nat) : Context → Status → Nat → Option (Context × Status)
  | c, st, 0 => some (c, st)
  | c, st, n + 1 =>
    if st ≠ Status.running then some (c, st)
    else
      match execute gp sl hd fuel c true with
      | none => none
      | some (c2, st2) => stepNLoop gp sl hd fuel c2 st2 n

/-- Method `ctAdapter.StepN` of ct.go: revision gate, non-running fast path,
context construction from the ct state, the single-step loop, and the
write-back into the state. `uint16(ctxt.pc)` is the truncation
`pc mod 2^16` of the two's complement value. -/
def StepN (gp : GasTable) (sl : LimitsTable) (hd : Handler) (fuel : Nat)
    (a : Option LruCache) (heap : List JumpDestMap) (cfg : VmConfig)
    (state : CtState) (numSteps : Nat) :
    Option (CtState × Option RunError) :=
  if newestSupportedRevision < (toVmParameters state).revision then
    some (state,
      some (RunError.unsupportedRevision (toVmParameters state).revision))
  else if state.status ≠ CtStatus.running then some (state, none)
  else
    let params := toVmParameters state
    let ctxt : Context :=
      { params := params, code := params.code,
        analysis := (analyzeJumpDest a heap params.code params.codeHash).value,
        pc := (state.pc : Int), gas := params.gas,
        refund := state.gasRefund,
        stack := convertCtStackToSfvmStack state.stack,
        memory := convertCtMemoryToSfvmMemory state.memory,
        returnData := state.lastCallReturnData,
        withShaCache := cfg.withShaCache }
    match stepNLoop gp sl hd fuel ctxt Status.running numSteps with
    | none => none
    | some (c2, st) =>
        some ({ state with
                status := convertSfvmStatusToCtStatus st,
                pc := if st = Status.running then (c2.pc % 65536).toNat
                  else state.pc,
                gas := c2.gas,
                gasRefund := c2.refund,
                stack := convertSfvmStackToCtStack c2.stack state.stack,
                memory := convertSfvmMemoryToCtMemory c2.memory,
                lastCallReturnData := c2.returnData,
                returnData := if st = Status.returned ∨ st = Status.reverted
                  then c2.returnData else state.returnData }, none)

/-! ### Concrete sample instances (used by closed witnesses) -/

/-- A static gas table charging one gas per instruction. -/
def sampleGas : GasTable := fun _ => 1

/-- A stack-limit table admitting any stack of size 0 to 1024. -/
def sampleLimits : LimitsTable := fun _ => { min := 0, max := 1024 }

/-- A handler that never errs, stops on opcode 0 and otherwise keeps
running. -/
def sampleHandler : Handler := fun op c =>
  if op = 0 then (c, Status.stopped, none) else (c, Status.running, none)

/-- A sample context over the program `JUMPDEST; STOP`, parametrised
by the gas level and the program counter. -/
def sampleCtx (g : Int) (pc : Int) : Context :=
  { params := { revision := 15, code := [0x5b, 0x00], codeHash := none,
                gas := g, input := [] },
    code := [0x5b, 0x00],
    analysis := { bitmap := [1], codeSize := 2 },
    pc := pc, gas := g, refund := 0, stack := NewStack,
    memory := NewMemory, returnData := [], withShaCache := true }

/-- A handler that stops unconditionally without error. -/
def sampleStop : Handler := fun _ c => (c, Status.stopped, none)

/-- A sample ct state in the stopped status. -/
def sampleCtState : CtState :=
  { status := CtStatus.stopped, revision := 15, pc := 0, gas := 100,
    gasRefund := 0, stack := [], memory := [], lastCallReturnData := [],
    returnData := [], code := [0x5b, 0x00], codeHash := none }

/-! ### Lemmas: bitmap operations -/

theorem mem_range'_iff (s n m : Nat) :
    m ∈ List.range' s n ↔ s ≤ m ∧ m < s + n := by
  rw [List.mem_range']
  constructor
  · rintro ⟨i, hi, rfl⟩
    omega
  · rintro ⟨h1, h2⟩
    exact ⟨m - s, by omega, by omega⟩

theorem getD_set_self (l : List Nat) (i v : Nat) (h : i < l.length) :
    (l.set i v).getD i 0 = v := by
  simp [List.getD_eq_getElem?_getD, List.getElem?_set_self, h]

theorem getD_set_ne (l : List Nat) (i j v : Nat) (h : i ≠ j) :
    (l.set i v).getD j 0 = l.getD j 0 := by
  simp [List.getD_eq_getElem?_getD, List.getElem?_set_ne h]

theorem and_two_pow_ne_zero (x i : Nat) :
    ((x &&& 2 ^ i) != 0) = x.testBit i := by
  rw [Nat.and_two_pow]
  cases h : x.testBit i <;> simp [h, Nat.pos_of_ne_zero]

/-- Function `isJumpDest` is the guarded bit test of the packed bitmap. -/
theorem isJumpDest_eq_testBit (a : JumpDestMap) (idx : Nat) :
    isJumpDest a idx =
      (decide (idx < a.codeSize) &&
        (a.bitmap.getD (idx / 64) 0).testBit (idx % 64)) := by
  unfold isJumpDest idxToAnalysisIdxAndMask
  by_cases h : a.codeSize ≤ idx
  · simp [h, Nat.not_lt.mpr h]
  · simp only [h, if_false, decide_eq_true_eq]
    rw [and_two_pow_ne_zero]
    have : idx < a.codeSize := Nat.lt_of_not_le h
    simp [this]

theorem isJumpDest_newJumpDestMap (n idx : Nat) :
    isJumpDest (newJumpDestMap n) idx = false := by
  rw [isJumpDest_eq_testBit]
  simp [newJumpDestMap, List.getD_eq_getElem?_getD]

theorem markJumpDest_codeSize (a : JumpDestMap) (j : Nat) :
    (markJumpDest a j).codeSize = a.codeSize := by
  unfold markJumpDest
  split <;> rfl

theorem markJumpDest_bitmap_length (a : JumpDestMap) (j : Nat) :
    (markJumpDest a j).bitmap.length = a.bitmap.length := by
  unfold markJumpDest
  split <;> simp

/-- Effect of marking offset `j` on the bit of offset `idx`, under the
size invariant established by `newJumpDestMap`. -/
theorem isJumpDest_markJumpDest (a : JumpDestMap) (j idx : Nat)
    (hwf : a.codeSize ≤ a.bitmap.length * 64) :
    isJumpDest (markJumpDest a j) idx =
      (isJumpDest a idx || (decide (j = idx) && decide (j < a.codeSize))) := by
  by_cases hj : a.codeSize ≤ j
  · have : ¬ j < a.codeSize := Nat.not_lt.mpr hj
    unfold markJumpDest
    simp [hj, this]
  · have hj2 : j < a.codeSize := Nat.lt_of_not_le hj
    have hjdiv : j / 64 < a.bitmap.length := by omega
    have hbm : (markJumpDest a j).bitmap =
        a.bitmap.set (j / 64) ((a.bitmap.getD (j / 64) 0) ||| 2 ^ (j % 64)) := by
      unfold markJumpDest idxToAnalysisIdxAndMask
      simp [hj]
    rw [isJumpDest_eq_testBit, isJumpDest_eq_testBit, hbm,
      markJumpDest_codeSize]
    by_cases hi : idx < a.codeSize
    · by_cases hdiv : idx / 64 = j / 64
      · rw [hdiv, getD_set_self _ _ _ hjdiv, Nat.testBit_lor]
        by_cases hmod : j % 64 = idx % 64
        · have hij : (j = idx) = True := by
            simp only [eq_iff_iff, iff_true]; omega
          rw [hmod, Nat.testBit_two_pow_self]
          simp [hi, hj2, hij]
        · have hij : ¬ (j = idx) := by omega
          rw [Nat.testBit_two_pow_of_ne hmod]
          simp [hi, hij]
      · rw [getD_set_ne _ _ _ _ (fun e => hdiv e.symm)]
        have hij : ¬ (j = idx) := by omega
        simp [hij]
    · simp [hi]
      intro he
      omega

/-! ### Lemmas: the analysis scan -/

theorem lt_of_mem_pushDataPositions (code : List Nat) :
    ∀ k idx i, code.length - idx ≤ k →
      i ∈ pushDataPositions code idx → idx < i := by
  intro k
  induction k with
  | zero =>
    intro idx i hk hmem
    rw [pushDataPositions] at hmem
    have : ¬ idx < code.length := by omega
    simp [this] at hmem
  | succ k ih =>
    intro idx i hk hmem
    rw [pushDataPositions] at hmem
    by_cases h : idx < code.length
    · simp only [dif_pos h] at hmem
      by_cases hpush : PUSH1 ≤ code.getD idx 0 ∧ code.getD idx 0 ≤ PUSH32
      · simp only [if_pos hpush, List.mem_append] at hmem
        rcases hmem with hmem | hmem
        · have := (mem_range'_iff _ _ _).mp hmem
          omega
        · have := ih (idx + (code.getD idx 0 - PUSH1 + 1) + 1) i (by omega) hmem
          omega
      · simp only [if_neg hpush] at hmem
        have := ih (idx + 1) i (by omega) hmem
        omega
    · simp [h] at hmem

/-- The offsets collected by the scan are exactly the in-range offsets
holding the `JUMPDEST` byte outside all immediate-data regions. -/
theorem mem_jumpDestsFrom (code : List Nat) :
    ∀ k idx, code.length - idx ≤ k → ∀ i,
      (i ∈ jumpDestsFrom code idx ↔
        idx ≤ i ∧ i < code.length ∧ code.getD i 0 = JUMPDEST ∧
          i ∉ pushDataPositions code idx) := by
  intro k
  induction k with
  | zero =>
    intro idx hk i
    have h : ¬ idx < code.length := by omega
    rw [jumpDestsFrom]
    simp only [dif_neg h, List.not_mem_nil, false_iff]
    intro hc
    omega
  | succ k ih =>
    intro idx hk i
    by_cases h : idx < code.length
    · rw [jumpDestsFrom, pushDataPositions]
      simp only [dif_pos h]
      by_cases hpush : PUSH1 ≤ code.getD idx 0 ∧ code.getD idx 0 ≤ PUSH32
      · simp only [if_pos hpush, List.mem_append, mem_range'_iff]
        rw [ih (idx + (code.getD idx 0 - PUSH1 + 1) + 1) (by omega) i]
        constructor
        · rintro ⟨h1, h2, h3, h4⟩
          refine ⟨by omega, h2, h3, ?_⟩
          intro hc
          rcases hc with hc | hc
          · omega
          · exact h4 hc
        · rintro ⟨h1, h2, h3, h4⟩
          have hne : i ≠ idx := by
            intro he
            rw [he] at h3
            unfold JUMPDEST at h3
            unfold PUSH1 PUSH32 at hpush
            omega
          have hout : ¬ (idx + 1 ≤ i ∧ i < idx + 1 + (code.getD idx 0 - PUSH1 + 1)) := by
            intro hc
            exact h4 (Or.inl hc)
          refine ⟨by omega, h2, h3, fun hc => h4 (Or.inr hc)⟩
      · simp only [if_neg hpush]
        by_cases hjd : code.getD idx 0 = JUMPDEST
        · simp only [if_pos hjd, List.mem_cons]
          rw [ih (idx + 1) (by omega) i]
          constructor
          · rintro (he | ⟨h1, h2, h3, h4⟩)
            · subst he
              refine ⟨Nat.le_refl _, h, hjd, ?_⟩
              intro hc
              have := lt_of_mem_pushDataPositions code (code.length - (i + 1))
                (i + 1) i (Nat.le_refl _) hc
              omega
            · exact ⟨by omega, h2, h3, h4⟩
          · rintro ⟨h1, h2, h3, h4⟩
            by_cases he : i = idx
            · exact Or.inl he
            · exact Or.inr ⟨by omega, h2, h3, h4⟩
        · simp only [if_neg hjd]
          rw [ih (idx + 1) (by omega) i]
          constructor
          · rintro ⟨h1, h2, h3, h4⟩
            exact ⟨by omega, h2, h3, h4⟩
          · rintro ⟨h1, h2, h3, h4⟩
            have hne : i ≠ idx := by
              intro he
              rw [he] at h3
              exact hjd h3
            exact ⟨by omega, h2, h3, h4⟩
    · rw [jumpDestsFrom]
      simp only [dif_neg h, List.not_mem_nil, false_iff]
      intro hc
      omega

/-- The dispatch of the analysis loop: the final bitmap holds a bit
exactly when it was already set or the scan from `idx` marks it. -/
theorem isJumpDest_jumpDestAnalysisLoop (code : List Nat) :
    ∀ k idx a, code.length - idx ≤ k →
      a.codeSize ≤ a.bitmap.length * 64 → a.codeSize = code.length →
      ∀ i, isJumpDest (jumpDestAnalysisLoop code idx a) i =
        (isJumpDest a i || decide (i ∈ jumpDestsFrom code idx)) := by
  intro k
  induction k with
  | zero =>
    intro idx a hk hwf hsz i
    have h : ¬ idx < code.length := by omega
    rw [jumpDestAnalysisLoop, jumpDestsFrom]
    simp [h]
  | succ k ih =>
    intro idx a hk hwf hsz i
    by_cases h : idx < code.length
    · rw [jumpDestAnalysisLoop, jumpDestsFrom]
      simp only [dif_pos h]
      by_cases hpush : PUSH1 ≤ code.getD idx 0 ∧ code.getD idx 0 ≤ PUSH32
      · simp only [if_pos hpush]
        exact ih (idx + (code.getD idx 0 - PUSH1 + 1) + 1) a (by omega) hwf hsz i
      · simp only [if_neg hpush]
        by_cases hjd : code.getD idx 0 = JUMPDEST
        · simp only [if_pos hjd]
          rw [ih (idx + 1) (markJumpDest a idx) (by omega)
            (by rw [markJumpDest_codeSize, markJumpDest_bitmap_length]; exact hwf)
            (by rw [markJumpDest_codeSize]; exact hsz) i]
          rw [isJumpDest_markJumpDest a idx i hwf]
          have hin : idx < a.codeSize := by omega
          simp only [List.mem_cons, hin]
          by_cases he : idx = i
          · simp [he]
          · have : ¬ (i = idx) := fun e => he e.symm
            simp [he, this]
        · simp only [if_neg hjd]
          exact ih (idx + 1) a (by omega) hwf hsz i
    · rw [jumpDestAnalysisLoop, jumpDestsFrom]
      simp [h]

/-- C1: `isJumpDest i` on the bitmap produced by
`jumpDestAnalysisInternal code` is true iff `i` is in range, byte `i`
is the JUMPDEST byte 0x5b, and `i` does not lie in the immediate-data
region of a preceding PUSHn instruction as skipped by the
left-to-right scan; in particular indices at or beyond the code length
always yield false. -/
theorem C1_jumpdest_analysis_correct (code : List Nat) (i : Nat) :
    isJumpDest (jumpDestAnalysisInternal code) i = true ↔
      (i < code.length ∧ code.getD i 0 = JUMPDEST ∧
        i ∉ pushDataPositions code 0) := by
  unfold jumpDestAnalysisInternal
  rw [isJumpDest_jumpDestAnalysisLoop code code.length 0
    (newJumpDestMap code.length) (by omega)
    (by unfold newJumpDestMap; simp; omega) (by rfl) i]
  rw [isJumpDest_newJumpDestMap]
  simp only [Bool.false_or, decide_eq_true_eq]
  rw [mem_jumpDestsFrom code code.length 0 (by omega) i]
  simp

/-! ### Result marshalling and the dispatch loop -/

/-- C2: `generateResult` maps each terminal status to the result
record of the specification's table — `Stopped` and `SelfDestructed`
succeed with empty output, remaining gas and refund; `Returned`
succeeds with the return data, remaining gas and refund; `Reverted`
fails with the return data, preserved gas and zero refund; `Failed`
fails with empty output and both gas fields zero — and `execute` turns
any error from `steps` into the failed status. -/
theorem C2_generateResult_table :
    (∀ c, generateResult Status.stopped c =
      ({ success := true, output := [], gasLeft := c.gas,
         gasRefund := c.refund }, none)) ∧
    (∀ c, generateResult Status.selfDestructed c =
      ({ success := true, output := [], gasLeft := c.gas,
         gasRefund := c.refund }, none)) ∧
    (∀ c, generateResult Status.returned c =
      ({ success := true, output := c.returnData, gasLeft := c.gas,
         gasRefund := c.refund }, none)) ∧
    (∀ c, generateResult Status.reverted c =
      ({ success := false, output := c.returnData, gasLeft := c.gas,
         gasRefund := 0 }, none)) ∧
    (∀ c, generateResult Status.failed c =
      ({ success := false, output := [], gasLeft := 0,
         gasRefund := 0 }, none)) ∧
    (∀ gp sl hd fuel c b c2 st e,
      steps gp sl hd fuel c b = some (c2, st, some e) →
      execute gp sl hd fuel c b = some (c2, Status.failed)) := by
  refine ⟨fun c => rfl, fun c => rfl, fun c => rfl, fun c => rfl,
    fun c => rfl, ?_⟩
  intro gp sl hd fuel c b c2 st e hst
  unfold execute
  rw [hst]

/-- Closed witness for C2: a one-gas charge against an empty budget
makes `steps` err with out-of-gas and `execute` report failure. -/
theorem C2_generateResult_table_witness :
    execute sampleGas sampleLimits sampleHandler 1 (sampleCtx 0 0) true =
      some (sampleCtx 0 0, Status.failed) :=
  C2_generateResult_table.2.2.2.2.2 sampleGas sampleLimits sampleHandler 1
    (sampleCtx 0 0) true (sampleCtx 0 0) Status.running VmError.outOfGas rfl

/-- C3: order of one iteration of the dispatch loop: at or past the
code end the run stops; otherwise the opcode at `pc` is fetched and
the stack limits are checked before any gas is charged (a stack that
is too small underflows, one that is too large overflows, and the
returned context is the input context — no gas charged, no handler
run); then the static gas is charged before the handler runs (failing
with out-of-gas, again leaving the context unchanged); after an
error-free handler the `pc` is incremented by one. -/
theorem C3_dispatch_order (gp : GasTable) (sl : LimitsTable)
    (hd : Handler) (b : Bool) (fuel : Nat) (c : Context) :
    ((c.code.length : Int) ≤ c.pc →
      stepsLoop gp sl hd b (fuel + 1) c Status.running =
        some (c, Status.stopped, none)) ∧
    (c.pc < (c.code.length : Int) →
      (((c.stack.length : Int) < (sl (c.code.getD c.pc.toNat 0)).min →
        stepsLoop gp sl hd b (fuel + 1) c Status.running =
          some (c, Status.running, some VmError.stackUnderflow)) ∧
      (¬ (c.stack.length : Int) < (sl (c.code.getD c.pc.toNat 0)).min →
        (sl (c.code.getD c.pc.toNat 0)).max < (c.stack.length : Int) →
        stepsLoop gp sl hd b (fuel + 1) c Status.running =
          some (c, Status.running, some VmError.stackOverflow)) ∧
      (checkStackLimits sl (c.stack.length : Int)
          (c.code.getD c.pc.toNat 0) = none →
        useGas c.gas (gp (c.code.getD c.pc.toNat 0)) = none →
        stepsLoop gp sl hd b (fuel + 1) c Status.running =
          some (c, Status.running, some VmError.outOfGas)) ∧
      (∀ g c2 st2,
        checkStackLimits sl (c.stack.length : Int)
          (c.code.getD c.pc.toNat 0) = none →
        useGas c.gas (gp (c.code.getD c.pc.toNat 0)) = some g →
        hd (c.code.getD c.pc.toNat 0) { c with gas := g } =
          (c2, st2, none) →
        stepsLoop gp sl hd b (fuel + 1) c Status.running =
          (if b then some ({ c2 with pc := c2.pc + 1 }, st2, none)
           else stepsLoop gp sl hd b fuel { c2 with pc := c2.pc + 1 }
             st2)))) := by
  constructor
  · intro hpc
    unfold stepsLoop
    rw [if_neg (fun hcon => hcon rfl), if_pos hpc]
  · intro hpc
    have hnle : ¬ (c.code.length : Int) ≤ c.pc := by omega
    refine ⟨?_, ?_, ?_, ?_⟩
    · intro hund
      have hcs : checkStackLimits sl (c.stack.length : Int)
          (c.code.getD c.pc.toNat 0) = some VmError.stackUnderflow := by
        unfold checkStackLimits
        rw [if_pos hund]
      unfold stepsLoop
      rw [if_neg (fun hcon => hcon rfl), if_neg hnle, hcs]
    · intro hnund hover
      have hcs : checkStackLimits sl (c.stack.length : Int)
          (c.code.getD c.pc.toNat 0) = some VmError.stackOverflow := by
        unfold checkStackLimits
        rw [if_neg hnund, if_pos hover]
      unfold stepsLoop
      rw [if_neg (fun hcon => hcon rfl), if_neg hnle, hcs]
    · intro hcs hug
      unfold stepsLoop
      rw [if_neg (fun hcon => hcon rfl), if_neg hnle, hcs, hug]
    · intro g c2 st2 hcs hug hh
      conv_lhs => unfold stepsLoop
      rw [if_neg (fun hcon => hcon rfl), if_neg hnle]
      simp only [hcs, hug, hh]

/-- Closed witness for C3, exercising the code-end branch, the
underflow branch, the out-of-gas branch and the error-free handler
branch at concrete inputs. -/
theorem C3_dispatch_order_witness :
    (stepsLoop sampleGas sampleLimits sampleHandler true 3
        (sampleCtx 10 5) Status.running =
      some (sampleCtx 10 5, Status.stopped, none)) ∧
    (stepsLoop sampleGas (fun _ => { min := 1, max := 1024 })
        sampleHandler true 3 (sampleCtx 10 0) Status.running =
      some (sampleCtx 10 0, Status.running,
        some VmError.stackUnderflow)) ∧
    (stepsLoop sampleGas sampleLimits sampleHandler true 3
        (sampleCtx 0 0) Status.running =
      some (sampleCtx 0 0, Status.running, some VmError.outOfGas)) ∧
    (stepsLoop sampleGas sampleLimits sampleHandler true 3
        (sampleCtx 10 0) Status.running =
      some ({ sampleCtx 10 0 with gas := 9, pc := 1 },
        Status.running, none)) := by
  refine ⟨?_, ?_, ?_, ?_⟩
  · exact (C3_dispatch_order sampleGas sampleLimits sampleHandler true 2
      (sampleCtx 10 5)).1 (by decide)
  · exact ((C3_dispatch_order sampleGas (fun _ => { min := 1, max := 1024 })
      sampleHandler true 2 (sampleCtx 10 0)).2 (by decide)).1 (by decide)
  · exact (((C3_dispatch_order sampleGas sampleLimits sampleHandler true 2
      (sampleCtx 0 0)).2 (by decide)).2.2.1 rfl rfl)
  · exact (((C3_dispatch_order sampleGas sampleLimits sampleHandler true 2
      (sampleCtx 10 0)).2 (by decide)).2.2.2 9
      { sampleCtx 10 0 with gas := 9 } Status.running rfl rfl rfl)

/-- C8: with `oneStepOnly = true` on a running context whose `pc` is
within the code, `steps` performs exactly one iteration of the
dispatch loop — its outcome is the written-out single iteration
(one code-end check, one stack-limit check, one static gas charge, one
handler dispatch, one `pc` increment), independent of the remaining
fuel, so no second iteration occurs. -/
theorem C8_single_step (gp : GasTable) (sl : LimitsTable) (hd : Handler)
    (fuel : Nat) (c : Context) (hf : 1 ≤ fuel)
    (hpc : c.pc < (c.code.length : Int)) :
    steps gp sl hd fuel c true = some (singleIteration gp sl hd c) := by
  cases fuel with
  | zero => omega
  | succ k =>
    have hnle : ¬ (c.code.length : Int) ≤ c.pc := by omega
    unfold steps stepsLoop singleIteration
    rw [if_neg (fun hcon => hcon rfl), if_neg hnle, if_neg hnle]
    cases hcs : checkStackLimits sl (c.stack.length : Int)
        (c.code.getD c.pc.toNat 0) with
    | some e => rfl
    | none =>
      cases hug : useGas c.gas (gp (c.code.getD c.pc.toNat 0)) with
      | none => rfl
      | some g =>
        dsimp only
        rcases hh : hd (c.code.getD c.pc.toNat 0) { c with gas := g } with
          ⟨c2, st2, e⟩
        cases e with
        | none => rfl
        | some e2 => rfl

/-! ### Gas accounting -/

theorem useGas_none_iff (g a : Int) (hg : 0 ≤ g) (ha : 0 ≤ a) :
    (useGas g a = none ↔ g < a) := by
  unfold useGas
  split
  · next hcond =>
    simp only [eq_self_iff_true, true_iff]
    omega
  · next hcond =>
    push_neg at hcond
    simp
    omega

theorem useGas_some_spec (g a g2 : Int) (h : useGas g a = some g2) :
    g2 = g - a ∧ 0 ≤ g2 ∧ g2 ≤ g := by
  unfold useGas at h
  split at h
  · exact absurd h (by simp)
  · next hcond =>
    push_neg at hcond
    injection h with h2
    omega

/-- Any outcome of the dispatch loop carries at most the gas of the
context it started from, provided the handlers never increase gas. -/
theorem stepsLoop_gas_le (gp : GasTable) (sl : LimitsTable) (hd : Handler)
    (hmono : HandlerGasMonotone hd) (b : Bool) :
    ∀ fuel c st c2 st2 e,
      stepsLoop gp sl hd b fuel c st = some (c2, st2, e) →
      c2.gas ≤ c.gas := by
  intro fuel
  induction fuel with
  | zero =>
    intro c st c2 st2 e h
    exact absurd h (by simp [stepsLoop])
  | succ k ih =>
    intro c st c2 st2 e h
    unfold stepsLoop at h
    split at h
    · simp only [Option.some.injEq, Prod.mk.injEq] at h
      rcases h with ⟨rfl, _⟩
      exact le_refl _
    · split at h
      · simp only [Option.some.injEq, Prod.mk.injEq] at h
        rcases h with ⟨rfl, _⟩
        exact le_refl _
      · split at h
        · simp only [Option.some.injEq, Prod.mk.injEq] at h
          rcases h with ⟨rfl, _⟩
          exact le_refl _
        · split at h
          · simp only [Option.some.injEq, Prod.mk.injEq] at h
            rcases h with ⟨rfl, _⟩
            exact le_refl _
          · next g hug =>
            split at h
            · next c3 st3 e3 hh =>
              have h1 := hmono (c.code.getD c.pc.toNat 0) { c with gas := g }
              rw [hh] at h1
              dsimp only at h1
              have h2 := useGas_some_spec c.gas _ g hug
              simp only [Option.some.injEq, Prod.mk.injEq] at h
              rcases h with ⟨heq, _⟩
              rw [← heq]
              omega
            · next c3 st3 hh =>
              have h1 := hmono (c.code.getD c.pc.toNat 0) { c with gas := g }
              rw [hh] at h1
              dsimp only at h1
              have h2 := useGas_some_spec c.gas _ g hug
              split at h
              · simp only [Option.some.injEq, Prod.mk.injEq] at h
                rcases h with ⟨heq, _⟩
                rw [← heq]
                dsimp only
                omega
              · have h3 := ih _ _ _ _ _ h
                dsimp only at h3
                omega

/-- C4: `useGas` fails exactly when the charge exceeds the remaining
(non-negative) gas; on success the gas decreases by exactly the charge
and stays non-negative; every dispatch-loop outcome holds at most the
starting gas when the handlers never add gas, so a run never reports
more than the initial `params.gas`; and a failed status reports zero
gas left. -/
theorem C4_gas_accounting :
    (∀ g a : Int, 0 ≤ g → 0 ≤ a → (useGas g a = none ↔ g < a)) ∧
    (∀ g a g2 : Int, useGas g a = some g2 →
      g2 = g - a ∧ 0 ≤ g2 ∧ g2 ≤ g) ∧
    (∀ gp sl hd b fuel c st c2 st2 e, HandlerGasMonotone hd →
      stepsLoop gp sl hd b fuel c st = some (c2, st2, e) →
      c2.gas ≤ c.gas) ∧
    (∀ gp sl hd fuel a heap cfg params res err, HandlerGasMonotone hd →
      0 ≤ params.gas →
      run gp sl hd fuel a heap cfg params = some (res, err) →
      res.gasLeft ≤ params.gas) ∧
    (∀ c, (generateResult Status.failed c).1.gasLeft = 0) := by
  refine ⟨fun g a hg ha => useGas_none_iff g a hg ha, useGas_some_spec,
    fun gp sl hd b fuel c st c2 st2 e hm h =>
      stepsLoop_gas_le gp sl hd hm b fuel c st c2 st2 e h,
    ?_, fun c => rfl⟩
  intro gp sl hd fuel a heap cfg params res err hm hg hrun
  unfold run at hrun
  split at hrun
  · simp only [Option.some.injEq, Prod.mk.injEq] at hrun
    rcases hrun with ⟨hres, _⟩
    rw [← hres]
  · dsimp only at hrun
    rcases hex : execute gp sl hd fuel
        { params := params, code := params.code,
          analysis := (analyzeJumpDest a heap params.code
            params.codeHash).value,
          pc := 0, gas := params.gas, refund := 0,
          stack := NewStack, memory := NewMemory, returnData := [],
          withShaCache := cfg.withShaCache } false with
      _ | p
    · rw [hex] at hrun
      exact absurd hrun (by simp)
    · rcases p with ⟨c2, st⟩
      rw [hex] at hrun
      have hgas : c2.gas ≤ params.gas := by
        unfold execute steps at hex
        rcases hsl : stepsLoop gp sl hd false fuel
            { params := params, code := params.code,
              analysis := (analyzeJumpDest a heap params.code
                params.codeHash).value,
              pc := 0, gas := params.gas, refund := 0,
              stack := NewStack, memory := NewMemory, returnData := [],
              withShaCache := cfg.withShaCache } Status.running with
          _ | t
        · rw [hsl] at hex
          exact absurd hex (by simp)
        · rcases t with ⟨c3, st3, e3⟩
          rw [hsl] at hex
          have hb := stepsLoop_gas_le gp sl hd hm false fuel _ _ _ _ _ hsl
          cases e3 with
          | none =>
            simp only [Option.some.injEq, Prod.mk.injEq] at hex
            rcases hex with ⟨rfl, _⟩
            exact hb
          | some e4 =>
            simp only [Option.some.injEq, Prod.mk.injEq] at hex
            rcases hex with ⟨rfl, _⟩
            exact hb
      simp only [Option.some.injEq] at hrun
      have hres : res = (generateResult st c2).1 := by rw [hrun]
      rw [hres]
      cases st <;> simp [generateResult] <;> omega

/-- Closed witness for C4: the `useGas` contract at gas 5 and charge
3, a one-instruction stop-run from gas 10, an empty-code run with
budget 50, and the zero gas report of a failed status, all at concrete
inputs. -/
theorem C4_gas_accounting_witness :
    (useGas 5 3 = none ↔ (5 : Int) < 3) ∧
    ((2 : Int) = 5 - 3 ∧ (0 : Int) ≤ 2 ∧ (2 : Int) ≤ 5) ∧
    (({ sampleCtx 10 0 with gas := 9, pc := 1 } : Context).gas ≤
      (sampleCtx 10 0).gas) ∧
    (({ success := true, output := [], gasLeft := 50,
        gasRefund := 0 } : Result).gasLeft ≤ 50) :=
  ⟨C4_gas_accounting.1 5 3 (by decide) (by decide),
   C4_gas_accounting.2.1 5 3 2 rfl,
   C4_gas_accounting.2.2.1 sampleGas sampleLimits sampleStop true 1
     (sampleCtx 10 0) Status.running
     { sampleCtx 10 0 with gas := 9, pc := 1 } Status.stopped none
     (fun op c => le_refl _) rfl,
   C4_gas_accounting.2.2.2.1 sampleGas sampleLimits sampleStop 1 none []
     { withShaCache := true, withAnalysisCache := true }
     { revision := 15, code := [], codeHash := none, gas := 50,
       input := [] }
     { success := true, output := [], gasLeft := 50, gasRefund := 0 }
     none (fun op c => le_refl _) (by decide) rfl⟩

/-- C7: a run over empty code returns immediately — for every gas
table, limits table, handler family, fuel, cache and configuration —
with success, nil output, the untouched gas budget and zero refund. -/
theorem C7_empty_code (gp : GasTable) (sl : LimitsTable) (hd : Handler)
    (fuel : Nat) (a : Option LruCache) (heap : List JumpDestMap)
    (cfg : VmConfig) (params : Parameters) (hempty : params.code = []) :
    run gp sl hd fuel a heap cfg params =
      some ({ success := true, output := [], gasLeft := params.gas,
              gasRefund := 0 }, none) := by
  unfold run
  rw [if_pos (by rw [hempty]; rfl)]

/-- Closed witness for C7: empty code with a budget of 1000000 even
with zero fuel and no cache. -/
theorem C7_empty_code_witness :
    run sampleGas sampleLimits sampleHandler 0 none []
      { withShaCache := true, withAnalysisCache := true }
      { revision := 15, code := [], codeHash := none, gas := 1000000,
        input := [] } =
      some ({ success := true, output := [], gasLeft := 1000000,
              gasRefund := 0 }, none) :=
  C7_empty_code sampleGas sampleLimits sampleHandler 0 none []
    { withShaCache := true, withAnalysisCache := true }
    { revision := 15, code := [], codeHash := none, gas := 1000000,
      input := [] } rfl

/-! ### Revision gating -/

/-- Function `generateResult` never reports an unsupported-revision error. -/
theorem generateResult_snd (st : Status) (c : Context) :
    (generateResult st c).2 = none ∨
      (generateResult st c).2 = some RunError.internalError := by
  cases st <;> simp [generateResult]

/-- C5: a revision above the newest supported one (Osaka = 15) makes
`Run` return the empty result with the unsupported-revision error
without executing, and makes `StepN` return the input state with the
same error without stepping; at or below Osaka neither entry point
ever reports that error. -/
theorem C5_unsupported_revision :
    (∀ gp sl hd fuel a heap cfg params,
      newestSupportedRevision < Parameters.revision params →
      Run gp sl hd fuel a heap cfg params =
        some ({ success := false, output := [], gasLeft := 0,
                gasRefund := 0 },
          some (RunError.unsupportedRevision params.revision))) ∧
    (∀ gp sl hd fuel a heap cfg params res err,
      Parameters.revision params ≤ newestSupportedRevision →
      Run gp sl hd fuel a heap cfg params = some (res, err) →
      ∀ r, err ≠ some (RunError.unsupportedRevision r)) ∧
    (∀ gp sl hd fuel a heap cfg state n,
      newestSupportedRevision < CtState.revision state →
      StepN gp sl hd fuel a heap cfg state n =
        some (state, some (RunError.unsupportedRevision state.revision))) ∧
    (∀ gp sl hd fuel a heap cfg state n res err,
      CtState.revision state ≤ newestSupportedRevision →
      StepN gp sl hd fuel a heap cfg state n = some (res, err) →
      ∀ r, err ≠ some (RunError.unsupportedRevision r)) := by
  refine ⟨?_, ?_, ?_, ?_⟩
  · intro gp sl hd fuel a heap cfg params hrev
    unfold Run
    rw [if_pos hrev]
  · intro gp sl hd fuel a heap cfg params res err hrev hrun
    unfold Run at hrun
    rw [if_neg (not_lt.mpr hrev)] at hrun
    unfold run at hrun
    split at hrun
    · simp only [Option.some.injEq, Prod.mk.injEq] at hrun
      rcases hrun with ⟨_, herr⟩
      rw [← herr]
      simp
    · dsimp only at hrun
      rcases hex : execute gp sl hd fuel
          { params := params, code := params.code,
            analysis := (analyzeJumpDest a heap params.code
              params.codeHash).value,
            pc := 0, gas := params.gas, refund := 0,
            stack := NewStack, memory := NewMemory, returnData := [],
            withShaCache := cfg.withShaCache } false with
        _ | p
      · rw [hex] at hrun
        exact absurd hrun (by simp)
      · rcases p with ⟨c2, st⟩
        rw [hex] at hrun
        simp only [Option.some.injEq] at hrun
        have herr : err = (generateResult st c2).2 := by rw [hrun]
        rcases generateResult_snd st c2 with hg | hg <;>
          rw [herr, hg] <;> simp
  · intro gp sl hd fuel a heap cfg state n hrev
    unfold StepN
    rw [if_pos (show newestSupportedRevision <
      (toVmParameters state).revision from hrev)]
    rfl
  · intro gp sl hd fuel a heap cfg state n res err hrev hstep
    unfold StepN at hstep
    rw [if_neg (show ¬ newestSupportedRevision <
      (toVmParameters state).revision from not_lt.mpr hrev)] at hstep
    split at hstep
    · simp only [Option.some.injEq, Prod.mk.injEq] at hstep
      rcases hstep with ⟨_, herr⟩
      rw [← herr]
      simp
    · dsimp only at hstep
      rcases hloop : stepNLoop gp sl hd fuel
          { params := toVmParameters state, code := (toVmParameters state).code,
            analysis := (analyzeJumpDest a heap (toVmParameters state).code
              (toVmParameters state).codeHash).value,
            pc := (state.pc : Int), gas := (toVmParameters state).gas,
            refund := state.gasRefund,
            stack := convertCtStackToSfvmStack state.stack,
            memory := convertCtMemoryToSfvmMemory state.memory,
            returnData := state.lastCallReturnData,
            withShaCache := cfg.withShaCache } Status.running n with
        _ | p
      · rw [hloop] at hstep
        exact absurd hstep (by simp)
      · rcases p with ⟨c2, st⟩
        rw [hloop] at hstep
        simp only [Option.some.injEq, Prod.mk.injEq] at hstep
        rcases hstep with ⟨_, herr⟩
        rw [← herr]
        simp

/-- Closed witness for C5: revision 16 is rejected by `Run` and
`StepN` with the unsupported-revision error; revision 15 runs (empty
code) and single-steps (stopped state) without it. -/
theorem C5_unsupported_revision_witness :
    (Run sampleGas sampleLimits sampleHandler 1 none []
        { withShaCache := true, withAnalysisCache := true }
        { revision := 16, code := [0x5b], codeHash := none, gas := 10,
          input := [] } =
      some ({ success := false, output := [], gasLeft := 0,
              gasRefund := 0 }, some (RunError.unsupportedRevision 16))) ∧
    (∀ r, (none : Option RunError) ≠
      some (RunError.unsupportedRevision r)) ∧
    (StepN sampleGas sampleLimits sampleHandler 1 none []
        { withShaCache := true, withAnalysisCache := true }
        { sampleCtState with revision := 16 } 3 =
      some ({ sampleCtState with revision := 16 },
        some (RunError.unsupportedRevision 16))) ∧
    (∀ r, (none : Option RunError) ≠
      some (RunError.unsupportedRevision r)) :=
  ⟨C5_unsupported_revision.1 sampleGas sampleLimits sampleHandler 1 none []
     { withShaCache := true, withAnalysisCache := true }
     { revision := 16, code := [0x5b], codeHash := none, gas := 10,
       input := [] } (by decide),
   C5_unsupported_revision.2.1 sampleGas sampleLimits sampleHandler 1 none
     [] { withShaCache := true, withAnalysisCache := true }
     { revision := 15, code := [], codeHash := none, gas := 10,
       input := [] }
     { success := true, output := [], gasLeft := 10, gasRefund := 0 }
     none (by decide) rfl,
   C5_unsupported_revision.2.2.1 sampleGas sampleLimits sampleHandler 1
     none [] { withShaCache := true, withAnalysisCache := true }
     { sampleCtState with revision := 16 } 3 (by decide),
   C5_unsupported_revision.2.2.2 sampleGas sampleLimits sampleHandler 1
     none [] { withShaCache := true, withAnalysisCache := true }
     sampleCtState 3 sampleCtState none (by decide) rfl⟩

/-- C10: on a supported revision, `StepN` leaves any non-running
state untouched and reports no error, regardless of the requested
number of steps. -/
theorem C10_stepn_non_running (gp : GasTable) (sl : LimitsTable)
    (hd : Handler) (fuel : Nat) (a : Option LruCache)
    (heap : List JumpDestMap) (cfg : VmConfig) (state : CtState) (n : Nat)
    (hrev : state.revision ≤ newestSupportedRevision)
    (hst : state.status ≠ CtStatus.running) :
    StepN gp sl hd fuel a heap cfg state n = some (state, none) := by
  unfold StepN
  rw [if_neg (show ¬ newestSupportedRevision <
    (toVmParameters state).revision from not_lt.mpr hrev), if_pos hst]

/-- Closed witness for C10: a stopped state at revision 15 is passed
through unchanged. -/
theorem C10_stepn_non_running_witness :
    StepN sampleGas sampleLimits sampleHandler 1 none []
      { withShaCache := true, withAnalysisCache := true }
      sampleCtState 5 = some (sampleCtState, none) :=
  C10_stepn_non_running sampleGas sampleLimits sampleHandler 1 none []
    { withShaCache := true, withAnalysisCache := true } sampleCtState 5
    (by decide) (by decide)

/-! ### Cache identity -/

theorem lruGet_miss_eq (c : LruCache) (k : Nat) (c2 : LruCache)
    (h : lruGet c k = (none, c2)) : c2 = c := by
  unfold lruGet at h
  cases hf : c.entries.find? (fun e => e.1 == k) with
  | none =>
    rw [hf] at h
    dsimp only at h
    simp only [Prod.mk.injEq] at h
    exact h.2.symm
  | some e =>
    rw [hf] at h
    dsimp only at h
    exact absurd h (by simp)

theorem lruGet_lruAdd_self (c : LruCache) (k v : Nat)
    (hcap : 1 ≤ c.capacity) :
    (lruGet (lruAdd c k v) k).1 = some v := by
  obtain ⟨m, hm⟩ : ∃ m, c.capacity = m + 1 := ⟨c.capacity - 1, by omega⟩
  unfold lruGet lruAdd
  dsimp only
  rw [hm, List.take_succ_cons, List.find?_cons_of_pos _ (by simp)]

theorem lruGet_hit_again (c : LruCache) (k idv : Nat) (c2 : LruCache)
    (h : lruGet c k = (some idv, c2)) : (lruGet c2 k).1 = some idv := by
  unfold lruGet at h
  cases hf : c.entries.find? (fun e => e.1 == k) with
  | none =>
    rw [hf] at h
    dsimp only at h
    exact absurd h (by simp)
  | some e =>
    rw [hf] at h
    dsimp only at h
    simp only [Prod.mk.injEq, Option.some.injEq] at h
    rcases h with ⟨hv, hc⟩
    rw [← hc]
    unfold lruGet
    dsimp only
    rw [List.find?_cons_of_pos _ (by simp)]
    dsimp only
    rw [hv]

/-- Function `analyzeJumpDest` on a cache hit returns the stored id. -/
theorem analyzeJumpDest_hit (cache : LruCache) (heap : List JumpDestMap)
    (code : List Nat) (hsh idv : Nat) (cache2 : LruCache)
    (h : lruGet cache hsh = (some idv, cache2)) :
    analyzeJumpDest (some cache) heap code (some hsh) =
      { value := heap.getD idv (newJumpDestMap 0), id := idv,
        heap := heap, cache := some cache2 } := by
  unfold analyzeJumpDest
  dsimp only
  rw [h]

/-- Function `analyzeJumpDest` on a cache miss allocates a fresh bitmap and
inserts it under the hash. -/
theorem analyzeJumpDest_miss (cache : LruCache) (heap : List JumpDestMap)
    (code : List Nat) (hsh : Nat) (cache2 : LruCache)
    (h : lruGet cache hsh = (none, cache2)) :
    analyzeJumpDest (some cache) heap code (some hsh) =
      { value := jumpDestAnalysisInternal code, id := heap.length,
        heap := heap ++ [jumpDestAnalysisInternal code],
        cache := some (lruAdd cache2 hsh heap.length) } := by
  unfold analyzeJumpDest
  dsimp only
  rw [h]

/-- C6: with a configured cache (of positive capacity, as enforced at
construction) and a code hash, a second `analyzeJumpDest` call with
the same hash returns the bitmap with the very same allocation id —
the same object — as the first call; with no cache or no hash, a fresh
bitmap (allocated at the next heap id) is computed and the cache is
left untouched. -/
theorem C6_cache_identity :
    (∀ (cache : LruCache) (heap : List JumpDestMap) (code : List Nat)
        (hsh : Nat), 1 ≤ cache.capacity →
      (analyzeJumpDest
          (analyzeJumpDest (some cache) heap code (some hsh)).cache
          (analyzeJumpDest (some cache) heap code (some hsh)).heap
          code (some hsh)).id =
        (analyzeJumpDest (some cache) heap code (some hsh)).id) ∧
    (∀ (heap : List JumpDestMap) (code : List Nat) (hsh : Option Nat),
      (analyzeJumpDest none heap code hsh).id = heap.length ∧
      (analyzeJumpDest none heap code hsh).value =
        jumpDestAnalysisInternal code ∧
      (analyzeJumpDest none heap code hsh).cache = none) ∧
    (∀ (cache : LruCache) (heap : List JumpDestMap) (code : List Nat),
      (analyzeJumpDest (some cache) heap code none).id = heap.length ∧
      (analyzeJumpDest (some cache) heap code none).value =
        jumpDestAnalysisInternal code ∧
      (analyzeJumpDest (some cache) heap code none).cache =
        some cache) := by
  refine ⟨?_, ?_, ?_⟩
  · intro cache heap code hsh hcap
    rcases hget : lruGet cache hsh with ⟨o, cache2⟩
    cases o with
    | some idv =>
      rw [analyzeJumpDest_hit cache heap code hsh idv cache2 hget]
      dsimp only
      have hagain := lruGet_hit_again cache hsh idv cache2 hget
      rcases hget2 : lruGet cache2 hsh with ⟨o2, cache3⟩
      rw [hget2] at hagain
      dsimp only at hagain
      subst hagain
      rw [analyzeJumpDest_hit cache2 heap code hsh idv cache3 hget2]
    | none =>
      have hceq : cache2 = cache := lruGet_miss_eq cache hsh cache2 hget
      subst hceq
      rw [analyzeJumpDest_miss cache2 heap code hsh cache2 hget]
      dsimp only
      have hhit := lruGet_lruAdd_self cache2 hsh heap.length hcap
      rcases hget2 : lruGet (lruAdd cache2 hsh heap.length) hsh with
        ⟨o2, cache3⟩
      rw [hget2] at hhit
      dsimp only at hhit
      subst hhit
      rw [analyzeJumpDest_hit (lruAdd cache2 hsh heap.length)
        (heap ++ [jumpDestAnalysisInternal code]) code hsh heap.length
        cache3 hget2]
  · intro heap code hsh
    cases hsh <;> exact ⟨rfl, rfl, rfl⟩
  · intro cache heap code
    exact ⟨rfl, rfl, rfl⟩

/-- Closed witness for C6: a capacity-4 cache, an empty heap, the
one-byte program `STOP` and hash 1; the second call returns the id of
the first. -/
theorem C6_cache_identity_witness :
    (analyzeJumpDest
        (analyzeJumpDest (some { capacity := 4, entries := [] }) []
          [0] (some 1)).cache
        (analyzeJumpDest (some { capacity := 4, entries := [] }) []
          [0] (some 1)).heap
        [0] (some 1)).id =
      (analyzeJumpDest (some { capacity := 4, entries := [] }) []
        [0] (some 1)).id :=
  C6_cache_identity.1 { capacity := 4, entries := [] } [] [0] 1
    (by decide)

/-! ### Conformance conversions -/

theorem ctStackLoopPush_eq (s : List Nat) :
    ∀ n res, n ≤ s.length →
      ctStackLoopPush s n res = res ++ (s.take n).reverse := by
  intro n
  induction n with
  | zero =>
    intro res hn
    simp [ctStackLoopPush]
  | succ k ih =>
    intro res hn
    have hk : k < s.length := by omega
    rw [ctStackLoopPush, ih _ (by omega)]
    unfold stackPush
    rw [List.getD_eq_getElem _ _ hk]
    simp only [List.append_assoc, List.singleton_append]
    congr 1
    rw [List.take_succ, List.getElem?_eq_getElem hk, Option.toList_some,
      List.reverse_append, List.reverse_singleton, List.singleton_append]

theorem convertCtStackToSfvmStack_eq_reverse (s : List Nat) :
    convertCtStackToSfvmStack s = s.reverse := by
  unfold convertCtStackToSfvmStack NewStack
  rw [ctStackLoopPush_eq s s.length [] (le_refl _), List.take_length]
  simp

theorem ctStackLoopSet_eq (stack : List Nat) (len : Nat) :
    ∀ k i res, len - i = k → len ≤ res.length →
      ctStackLoopSet stack len i res =
        (List.range (len - i)).map
          (fun p => stack.getD (len - 1 - p) 0) ++ res.drop (len - i) := by
  intro k
  induction k with
  | zero =>
    intro i res hk hlen
    rw [ctStackLoopSet]
    have hni : ¬ i < len := by omega
    rw [if_neg hni, hk]
    simp
  | succ k ih =>
    intro i res hk hlen
    have hi : i < len := by omega
    have hidx : len - i - 1 < res.length := by omega
    rw [ctStackLoopSet, if_pos hi,
      ih (i + 1) _ (by omega) (by rw [List.length_set]; exact hlen)]
    have hd : (res.set (len - i - 1) (stack.getD i 0)).drop (len - (i + 1)) =
        stack.getD i 0 :: res.drop (len - i) := by
      have h1 : len - (i + 1) = len - i - 1 := by omega
      rw [h1, List.drop_set, if_neg (by omega)]
      have h2 : len - i - 1 - (len - i - 1) = 0 := by omega
      rw [h2, List.drop_eq_getElem_cons hidx, List.set_cons_zero]
      have h3 : len - i - 1 + 1 = len - i := by omega
      rw [h3]
    rw [hd]
    have hr : len - i = (len - (i + 1)) + 1 := by omega
    rw [hr, List.range_succ, List.map_append, List.append_assoc]
    have hn : len - (i + 1) = len - i - 1 := by omega
    have hv : len - 1 - (len - i - 1) = i := by omega
    simp [hn, hv]

theorem ctResize_length (s : List Nat) (n : Nat) :
    (ctResize s n).length = n := by
  unfold ctResize
  split <;> simp <;> omega

/-- The stack round trip of ct.go is the identity. -/
theorem stack_roundtrip (s res : List Nat) :
    convertSfvmStackToCtStack (convertCtStackToSfvmStack s) res = s := by
  rw [convertCtStackToSfvmStack_eq_reverse]
  unfold convertSfvmStackToCtStack
  rw [ctStackLoopSet_eq s.reverse s.reverse.length s.reverse.length 0
    (ctResize res s.reverse.length) (by omega) (by rw [ctResize_length])]
  rw [Nat.sub_zero]
  have hdrop : (ctResize res s.reverse.length).drop s.reverse.length = [] :=
    List.drop_eq_nil_of_le (by simp [ctResize_length])
  rw [hdrop, List.append_nil]
  apply List.ext_getElem
  · simp
  · intro j h1 h2
    simp only [List.getElem_map, List.getElem_range]
    have hj : j < s.length := h2
    have hb : s.reverse.length - 1 - j < s.reverse.length := by
      simp only [List.length_reverse]
      omega
    rw [List.getD_eq_getElem _ _ hb, List.getElem_reverse]
    congr 1
    simp only [List.length_reverse]
    omega

/-- The memory round trip of ct.go is the identity on word-aligned
contents. -/
theorem memory_roundtrip (m : List Nat) (hm : m.length % 32 = 0) :
    convertSfvmMemoryToCtMemory (convertCtMemoryToSfvmMemory m) = m := by
  unfold convertSfvmMemoryToCtMemory convertCtMemoryToSfvmMemory
    SizeInWords
  dsimp only
  have hz : (m.length + 31) / 32 * 32 - m.length = 0 := by omega
  rw [hz]
  simp

/-- C9: the conformance-test conversions are round trips — converting
a ct stack to an sfvm stack and back (into any scratch ct stack)
restores the original stack, and converting a word-aligned ct memory
to an sfvm memory and back restores the original contents. -/
theorem C9_roundtrip :
    (∀ s res : List Nat, s.length ≤ 1024 →
      convertSfvmStackToCtStack (convertCtStackToSfvmStack s) res = s) ∧
    (∀ m : List Nat, m.length % 32 = 0 →
      convertSfvmMemoryToCtMemory (convertCtMemoryToSfvmMemory m) = m) :=
  ⟨fun s res _ => stack_roundtrip s res, memory_roundtrip⟩

/-- Closed witness for C9: the three-element stack `[5, 4, 3]` over a
scratch stack `[9, 9]`, and a 32-byte memory. -/
theorem C9_roundtrip_witness :
    convertSfvmStackToCtStack (convertCtStackToSfvmStack [5, 4, 3])
        [9, 9] = [5, 4, 3] ∧
    convertSfvmMemoryToCtMemory
        (convertCtMemoryToSfvmMemory (List.replicate 32 7)) =
      List.replicate 32 7 :=
  ⟨C9_roundtrip.1 [5, 4, 3] [9, 9] (by decide),
   C9_roundtrip.2 (List.replicate 32 7) (by decide)⟩

/-- Closed witness for C8 at a concrete context and fuel. -/
theorem C8_single_step_witness :
    steps sampleGas sampleLimits sampleHandler 7 (sampleCtx 10 0) true =
      some (singleIteration sampleGas sampleLimits sampleHandler
        (sampleCtx 10 0)) :=
  C8_single_step sampleGas sampleLimits sampleHandler 7 (sampleCtx 10 0)
    (by decide) (by decide)

end Sfvm
